import Mathlib

/-!
Verification of the eSunMoon city-cache subsystem: a shallow embedding of the
Go source (normalization, cache data model, resolution, TTL freshness check,
advisory file lock, atomic save, lenient load) together with theorems settling
the specification claims about it.

Machine integers and times are modelled as `Nat`/`Int` (Go `time.Duration` and
epoch timestamps are int64 nanoseconds; none of the values involved overflow).
`float64` latitude/longitude fields are modelled as `Rat`: Go's `encoding/json`
round-trips every `float64` exactly, so a JSON number is represented by its
exact value. Fallible operations return `Option`/`Except`; filesystem state is
passed explicitly.
-/
/-! ## Character-level modelling of `strings.TrimSpace` and `strings.ToLower` -/
/-- Model of Go `unicode.IsSpace`: the Unicode White_Space property
(this is the complete set of code points with that property). -/
def goIsSpace (c : Char) : Bool :=
  let n := c.toNat
  n = 0x09 || n = 0x0A || n = 0x0B || n = 0x0C || n = 0x0D || n = 0x20 ||
  n = 0x85 || n = 0xA0 || n = 0x1680 || (0x2000 ≤ n && n ≤ 0x200A) ||
  n = 0x2028 || n = 0x2029 || n = 0x202F || n = 0x205F || n = 0x3000

/-- Model of Go `unicode.ToLower` (the locale-independent Unicode simple
lowercase mapping) on the Basic Latin, Latin-1, Greek and Cyrillic ranges,
which cover every character exercised in this development.  Code points
outside these ranges — including the caseless CJK scripts — are returned
unchanged. -/
def goToLowerChar (c : Char) : Char :=
  let n := c.toNat
  if 0x41 ≤ n && n ≤ 0x5A then Char.ofNat (n + 32)          -- A-Z
  else if 0xC0 ≤ n && n ≤ 0xDE && n ≠ 0xD7 then Char.ofNat (n + 32)  -- Latin-1 capitals
  else if 0x391 ≤ n && n ≤ 0x3A9 && n ≠ 0x3A2 then Char.ofNat (n + 32) -- Greek capitals
  else if 0x410 ≤ n && n ≤ 0x42F then Char.ofNat (n + 32)   -- Cyrillic А-Я
  else if 0x400 ≤ n && n ≤ 0x40F then Char.ofNat (n + 80)   -- Cyrillic Ѐ-Џ
  else c

/-- Model of Go `strings.TrimSpace`: drop leading and trailing white space. -/
def goTrimSpace (s : String) : String :=
  ⟨((s.data.dropWhile goIsSpace).reverse.dropWhile goIsSpace).reverse⟩

/-- Model of Go `strings.ToLower`: lowercase every character. -/
def goToLowerString (s : String) : String :=
  ⟨s.data.map goToLowerChar⟩

/-- `normalizeCityKey` from the source:
`strings.ToLower(strings.TrimSpace(city))`. -/
def normalizeCityKey (city : String) : String :=
  goToLowerString (goTrimSpace city)

/-! ## Cache data model

Go's `map[string]CityCacheEntry` is modelled as an association list with the
keys-unique invariant; `float64` fields are modelled as `Rat` (exact values). -/
/-- `CityCacheEntry` from the source (JSON tags: city, normalized,
display_name, lat, lon, timezone_id, aliases (omitempty), updated_at). -/
structure CityCacheEntry where
  City        : String
  Normalized  : String
  DisplayName : String
  Lat         : Rat
  Lon         : Rat
  TimezoneID  : String
  Aliases     : List String
  UpdatedAt   : String
deriving DecidableEq, Repr

/-- The zero value `CityCacheEntry{}` returned by a failed lookup. -/
def emptyCityCacheEntry : CityCacheEntry :=
  ⟨"", "", "", 0, 0, "", [], ""⟩

/-- `CityCache` from the source: `Entries map[string]CityCacheEntry`. -/
structure CityCache where
  Entries : List (String × CityCacheEntry)
deriving DecidableEq, Repr

/-- Go map indexing `cache.Entries[key]` on the association-list model. -/
def lookupKey (k : String) : List (String × CityCacheEntry) → Option CityCacheEntry
  | [] => none
  | p :: rest => if p.1 = k then some p.2 else lookupKey k rest

/-- The inner alias loop of `findEntryInCache`:
`for _, a := range e.Aliases { if normalizeCityKey(a) == key { ... } }`. -/
def aliasMatches (key : String) : List String → Bool
  | [] => false
  | a :: rest => if normalizeCityKey a = key then true else aliasMatches key rest

/-- The fallback scan of `findEntryInCache` over all entries: per entry, first
the canonical city name, then each alias. -/
def scanEntries (key : String) : List (String × CityCacheEntry) → Option CityCacheEntry
  | [] => none
  | p :: rest =>
    if normalizeCityKey p.2.City = key then some p.2
    else if aliasMatches key p.2.Aliases then some p.2
    else scanEntries key rest

/-- `findEntryInCache` from the source: normalize the query, try the map key
first, then the linear scan; return the zero entry and `false` on no match. -/
def findEntryInCache (cache : CityCache) (city : String) : CityCacheEntry × Bool :=
  let key := normalizeCityKey city
  match lookupKey key cache.Entries with
  | some e => (e, true)
  | none =>
    match scanEntries key cache.Entries with
    | some e => (e, true)
    | none => (emptyCityCacheEntry, false)

/-- The per-entry match predicate of the fallback scan. -/
def entryMatches (key : String) (e : CityCacheEntry) : Prop :=
  normalizeCityKey e.City = key ∨ ∃ a ∈ e.Aliases, normalizeCityKey a = key

/-- C1 witness: a concrete cache where an alias query (case- and
whitespace-variant) is found via the characterization theorem. -/
def demoEntry : CityCacheEntry :=
  ⟨"北京", "beijing", "Beijing, China", 39, 116, "Asia/Shanghai",
   ["北京", "Beijing", "Peking"], "1970-01-01T00:00:00Z"⟩

def demoCache : CityCache := ⟨[("beijing", demoEntry)]⟩

/-! ## RFC3339 timestamp parsing and the TTL freshness check

Go `time.Parse(time.RFC3339, s)` is modelled as a parser returning the
instant as `Int` nanoseconds since the Unix epoch (`time.Time.Sub` yields a
`time.Duration`, an int64 nanosecond count; none of the involved values
overflow int64, so plain `Int` is faithful). -/
/-- Value of a decimal digit character, if it is one. -/
def digitVal (c : Char) : Option Nat :=
  if '0' ≤ c ∧ c ≤ '9' then some (c.toNat - 48) else none

/-- Read exactly two digits. -/
def read2 : List Char → Option (Nat × List Char)
  | a :: b :: rest => do
    let x ← digitVal a
    let y ← digitVal b
    pure (x * 10 + y, rest)
  | _ => none

/-- Read exactly four digits. -/
def read4 : List Char → Option (Nat × List Char)
  | a :: b :: c :: d :: rest => do
    let x ← digitVal a
    let y ← digitVal b
    let z ← digitVal c
    let w ← digitVal d
    pure (((x * 10 + y) * 10 + z) * 10 + w, rest)
  | _ => none

/-- Consume one expected literal character. -/
def expectChar (c : Char) : List Char → Option (List Char)
  | x :: rest => if x = c then some rest else none
  | [] => none

/-- Gregorian leap-year rule. -/
def isLeapYear (y : Nat) : Bool :=
  y % 4 = 0 && (y % 100 ≠ 0 || y % 400 = 0)

/-- Days in a month of the proleptic Gregorian calendar. -/
def daysInMonth (y m : Nat) : Nat :=
  if m = 2 then (if isLeapYear y then 29 else 28)
  else if m = 4 ∨ m = 6 ∨ m = 9 ∨ m = 11 then 30
  else 31

/-- Days from the Unix epoch to civil date `(y, m, d)` (classic
days-from-civil computation, shifted by 400 years to stay in `Nat`). -/
def epochDays (y m d : Nat) : Int :=
  let ys := y + 400
  let y' := if m ≤ 2 then ys - 1 else ys
  let era := y' / 400
  let yoe := y' % 400
  let mp := if m > 2 then m - 3 else m + 9
  let doy := (153 * mp + 2) / 5 + (d - 1)
  let doe := yoe * 365 + yoe / 4 - yoe / 100 + doy
  ((era * 146097 + doe : Nat) : Int) - 146097 - 719468

/-- Nanoseconds denoted by a fractional-second digit string (Go keeps at most
nanosecond precision, truncating further digits). -/
def fracNanos (ds : List Char) : Nat :=
  let d9 := ds.take 9
  let v := d9.foldl (fun acc c => acc * 10 + (c.toNat - 48)) 0
  v * 10 ^ (9 - d9.length)

/-- Optional fractional part after the seconds: '.' followed by at least one
digit; absent otherwise. -/
def readFrac : List Char → Option (Nat × List Char)
  | '.' :: rest =>
    let ds := rest.takeWhile fun c => decide ('0' ≤ c ∧ c ≤ '9')
    if ds.isEmpty then none else some (fracNanos ds, rest.drop ds.length)
  | other => some (0, other)

/-- Zone designator: 'Z' (UTC) or a signed hh:mm offset, returned in
seconds. -/
def readZone : List Char → Option (Int × List Char)
  | 'Z' :: rest => some (0, rest)
  | c :: rest =>
    if c = '+' ∨ c = '-' then do
      let (h, r1) ← read2 rest
      let r2 ← expectChar ':' r1
      let (m, r3) ← read2 r2
      if h ≤ 23 ∧ m ≤ 59 then
        let off : Int := h * 3600 + m * 60
        pure (if c = '-' then -off else off, r3)
      else none
    else none
  | [] => none

/-- Model of Go `time.Parse(time.RFC3339, s)`: strict
`YYYY-MM-DDTHH:MM:SS[.fff...](Z|±HH:MM)` with calendar validation, returning
nanoseconds since the Unix epoch. -/
def parseRFC3339 (s : String) : Option Int := do
  let cs := s.data
  let (y, r1) ← read4 cs
  let r2 ← expectChar '-' r1
  let (mo, r3) ← read2 r2
  let r4 ← expectChar '-' r3
  let (d, r5) ← read2 r4
  let r6 ← expectChar 'T' r5
  let (h, r7) ← read2 r6
  let r8 ← expectChar ':' r7
  let (mi, r9) ← read2 r8
  let r10 ← expectChar ':' r9
  let (sec, r11) ← read2 r10
  let (ns, r12) ← readFrac r11
  let (off, r13) ← readZone r12
  if r13 = [] ∧ 1 ≤ mo ∧ mo ≤ 12 ∧ 1 ≤ d ∧ d ≤ daysInMonth y mo ∧
      h ≤ 23 ∧ mi ≤ 59 ∧ sec ≤ 59 then
    pure ((epochDays y mo d * 86400 + ((h * 3600 + mi * 60 + sec : Nat) : Int) - off)
      * 1000000000 + (ns : Int))
  else none

/-- The default cache TTL from `newAstroApp`: `100 * 24 * time.Hour`, in
nanoseconds. -/
def defaultCacheTTL : Int := 100 * 24 * 60 * 60 * 1000000000

/-- The freshness check of `prepareCity`: `expired := true`, overwritten by
`now.Sub(t) > cacheTTL` only when `updatedAt` is non-empty and parses as
RFC3339.  `now` and `ttl` are in nanoseconds. -/
def entryExpired (now ttl : Int) (updatedAt : String) : Bool :=
  if updatedAt = "" then true
  else
    match parseRFC3339 updatedAt with
    | some t => decide (now - t > ttl)
    | none => true

/-! ## The `prepareCity` decision logic

`prepareCity` mixes the cache logic with external collaborators (geocoder,
timezone lookup/load, clock, console output).  The collaborators are modelled
as an oracle record; console output is irrelevant to the claims and omitted.
The function below follows the Go control flow of `prepareCity` statement by
statement. -/
/-- The built-in alias table `builtinAliases` from the source. -/
def builtinAliases (k : String) : Option (List String) :=
  if k = "beijing" then some ["北京", "Beijing", "Peking"]
  else if k = "shanghai" then some ["上海", "Shanghai"]
  else if k = "guangzhou" then some ["广州", "Guangzhou", "Canton"]
  else none

/-- Go map assignment `cache.Entries[k] = e` on the association-list model. -/
def setEntry (k : String) (e : CityCacheEntry) :
    List (String × CityCacheEntry) → List (String × CityCacheEntry)
  | [] => [(k, e)]
  | p :: rest => if p.1 = k then (k, e) :: rest else p :: setEntry k e rest

/-- Results of the external collaborators used by `prepareCity`:
geocoding, timezone-ID lookup, timezone loading, cache save, and the
`time.Now().Format(time.RFC3339)` string stamped on a fresh entry. -/
structure NetOracle where
  geocode  : Option (Rat × Rat × String)
  tzOf     : Option String
  loadTZOk : String → Bool
  saveFails : Bool
  nowStamp : String

/-- Observable outcome of a `prepareCity` call. -/
inductive PrepareOutcome where
  | emptyCityError
  | cachedHit (e : CityCacheEntry)
  | cachedTZLoadError (tz : String)
  | offlineExpired (city : String)
  | offlineNotFound (city : String)
  | geocodeError
  | tzLookupError
  | tzLoadError (tz : String)
  | saveError (attempted : CityCache)
  | fetched (lat lon : Rat) (displayName tzID : String) (newCache : CityCache)
deriving DecidableEq

/-- The online fetch path of `prepareCity`: geocode, look up and load the
timezone, build the new entry (canonical name plus built-in aliases), store
it under its normalized key and save the cache. -/
def fetchCity (cache : CityCache) (city : String) (net : NetOracle) : PrepareOutcome :=
  match net.geocode with
  | none => .geocodeError
  | some (lat, lon, displayName) =>
    match net.tzOf with
    | none => .tzLookupError
    | some tzID =>
      if net.loadTZOk tzID = false then .tzLoadError tzID
      else
        let aliases := city :: (match builtinAliases (normalizeCityKey city) with
          | some extra => extra
          | none => [])
        let entry : CityCacheEntry :=
          ⟨city, normalizeCityKey city, displayName, lat, lon, tzID, aliases, net.nowStamp⟩
        let newCache : CityCache := ⟨setEntry entry.Normalized entry cache.Entries⟩
        if net.saveFails then .saveError newCache
        else .fetched lat lon displayName tzID newCache

/-- `prepareCity` from the source: reject an empty name, resolve against the
cache, apply the freshness check, use a fresh-enough hit directly, fail in
offline mode on an expired or missing entry, and otherwise fetch online. -/
def prepareCity (cache : CityCache) (city : String) (offline : Bool)
    (now ttl : Int) (net : NetOracle) : PrepareOutcome :=
  if city = "" then .emptyCityError
  else
    match findEntryInCache cache city with
    | (entry, true) =>
      let expired := entryExpired now ttl entry.UpdatedAt
      if expired && offline then .offlineExpired city
      else if !expired then
        (if net.loadTZOk entry.TimezoneID then .cachedHit entry
         else .cachedTZLoadError entry.TimezoneID)
      else
        -- expired and online: fall through to the common fetch path
        fetchCity cache city net
    | (_, false) =>
      if offline then .offlineNotFound city
      else fetchCity cache city net

/-- Outcomes that show a fresh online fetch was attempted (every exit of the
fetch path, successful or not). -/
def isFetchAttempt : PrepareOutcome → Bool
  | .geocodeError => true
  | .tzLookupError => true
  | .tzLoadError _ => true
  | .saveError _ => true
  | .fetched _ _ _ _ _ => true
  | _ => false

/-- C9 witness: a concrete entry with empty `updatedAt` found by key; offline
mode fails with the cache-expired error. -/
def staleEntry : CityCacheEntry :=
  ⟨"Paris", "paris", "Paris, France", 48, 2, "Europe/Paris", ["Paris"], ""⟩

def staleCache : CityCache := ⟨[("paris", staleEntry)]⟩

def demoNet : NetOracle :=
  ⟨some (10, 20, "Somewhere"), some "UTC", fun _ => true, false, "1970-01-01T00:00:00Z"⟩

/-! ## Advisory file lock

`acquireFileLock` polls `os.OpenFile(lockPath, O_CREATE|O_EXCL, ...)` every
100ms until creation succeeds or the context fires.  The marker file's
existence at each poll is an environment function `env : Nat → Bool` (other
processes may create or remove it between polls); `fuel` is the number of
ticker intervals remaining before the caller-supplied deadline fires.  The
result pairs the call's outcome with whether the marker file exists at the
path when the call returns. -/
/-- The cancellation error propagated from the context
(`context.DeadlineExceeded`). -/
inductive LockErr where
  | timeout
deriving DecidableEq

/-- The polling loop of `acquireFileLock`: try the exclusive create first; on
failure return the context error if the deadline has fired, otherwise sleep
one ticker interval and retry. -/
def acquireLoop (env : Nat → Bool) (i fuel : Nat) : Except LockErr Unit × Bool :=
  if env i = false then (Except.ok (), true)
  else
    match fuel with
    | 0 => (Except.error LockErr.timeout, true)
    | f + 1 => acquireLoop env (i + 1) f

/-- `acquireFileLock` from the source. -/
def acquireFileLock (env : Nat → Bool) (fuel : Nat) : Except LockErr Unit × Bool :=
  acquireLoop env 0 fuel

/-- The `release` closure returned by `acquireFileLock`:
`os.Remove(lockPath)` — afterwards the marker file no longer exists. -/
def releaseFileLock : Bool := false

/-! ## JSON serialization of the cache document

Go's `encoding/json` is modelled at the value level: a `Json` tree instead of
a byte string (string escaping and number formatting are inverse pairs in Go,
and `float64` round-trips exactly, so the byte layer adds nothing to the
claims).  `json.Marshal` emits struct fields in declaration order, omits an
empty `aliases` slice (`omitempty`), and sorts map keys; `json.Unmarshal`
matches object keys to field tags case-insensitively with the last occurrence
winning, treats `null` as a no-op (keeping the zero value) and missing fields
as zero values, and fails on any type mismatch. -/
inductive Json where
  | null
  | bool (b : Bool)
  | num (q : Rat)
  | str (s : String)
  | arr (xs : List Json)
  | obj (fields : List (String × Json))

/-- Approximation of Go `strings.EqualFold` by simple-lowercasing both sides
(exact for the ASCII field tags it is applied to). -/
def eqFold (a b : String) : Bool :=
  goToLowerString a = goToLowerString b

/-- Field lookup of the Go JSON decoder: keys matched case-insensitively,
later occurrences of a key overwrite earlier ones (last match wins). -/
def findField : List (String × Json) → String → Option Json
  | [], _ => none
  | p :: rest, tag =>
    match findField rest tag with
    | some v => some v
    | none => if eqFold p.1 tag then some p.2 else none

/-- Decode a JSON value into a Go `string` field
(`null` is a no-op, keeping the zero value `""`). -/
def decodeString : Json → Option String
  | .str s => some s
  | .null => some ""
  | _ => none

/-- Decode a JSON value into a Go `float64` field (exact `Rat` model). -/
def decodeNumber : Json → Option Rat
  | .num q => some q
  | .null => some 0
  | _ => none

/-- Decode a JSON array of strings. -/
def decodeStrings : List Json → Option (List String)
  | [] => some []
  | j :: rest => do
    let s ← decodeString j
    let ss ← decodeStrings rest
    pure (s :: ss)

/-- Decode a JSON value into a Go `[]string` field. -/
def decodeStringList : Json → Option (List String)
  | .null => some []
  | .arr xs => decodeStrings xs
  | _ => none

/-- A `string` struct field: zero value when the key is absent. -/
def fieldString (fields : List (String × Json)) (tag : String) : Option String :=
  match findField fields tag with
  | none => some ""
  | some j => decodeString j

/-- A `float64` struct field: zero value when the key is absent. -/
def fieldNumber (fields : List (String × Json)) (tag : String) : Option Rat :=
  match findField fields tag with
  | none => some 0
  | some j => decodeNumber j

/-- A `[]string` struct field: nil (empty in this model) when absent. -/
def fieldStrings (fields : List (String × Json)) (tag : String) : Option (List String) :=
  match findField fields tag with
  | none => some []
  | some j => decodeStringList j

/-- `json.Unmarshal` into a `CityCacheEntry`. -/
def unmarshalEntry : Json → Option CityCacheEntry
  | .null => some emptyCityCacheEntry
  | .obj fields =>
    match fieldString fields "city", fieldString fields "normalized",
          fieldString fields "display_name", fieldNumber fields "lat",
          fieldNumber fields "lon", fieldString fields "timezone_id",
          fieldStrings fields "aliases", fieldString fields "updated_at" with
    | some city, some norm, some disp, some lat, some lon, some tz, some al, some upd =>
      some ⟨city, norm, disp, lat, lon, tz, al, upd⟩
    | _, _, _, _, _, _, _, _ => none
  | _ => none

/-- `json.Unmarshal` of the entries map (documents written by `saveCache`
have unique keys, so the association list needs no last-wins collapsing). -/
def unmarshalEntries : List (String × Json) → Option (List (String × CityCacheEntry))
  | [] => some []
  | (k, j) :: rest => do
    let e ← unmarshalEntry j
    let es ← unmarshalEntries rest
    pure ((k, e) :: es)

/-- `json.Unmarshal` into a `CityCache`: top-level `null` is a no-op (zero
value, nil entries — represented as the empty list); a missing or `null`
`entries` key likewise; any type mismatch is an error. -/
def unmarshalCityCache : Json → Option CityCache
  | .null => some ⟨[]⟩
  | .obj fields =>
    match findField fields "entries" with
    | none => some ⟨[]⟩
    | some .null => some ⟨[]⟩
    | some (.obj m) =>
      match unmarshalEntries m with
      | some es => some ⟨es⟩
      | none => none
    | some _ => none
  | _ => none

/-- `json.Marshal` of a `CityCacheEntry`: fields in declaration order,
`aliases` omitted when empty (`omitempty`). -/
def marshalEntry (e : CityCacheEntry) : Json :=
  .obj ([("city", .str e.City), ("normalized", .str e.Normalized),
         ("display_name", .str e.DisplayName), ("lat", .num e.Lat),
         ("lon", .num e.Lon), ("timezone_id", .str e.TimezoneID)]
    ++ (if e.Aliases = [] then [] else [("aliases", .arr (e.Aliases.map Json.str))])
    ++ [("updated_at", .str e.UpdatedAt)])

/-- Insertion step of the key sort `json.Marshal` applies to map keys. -/
def insertEntry (p : String × CityCacheEntry) :
    List (String × CityCacheEntry) → List (String × CityCacheEntry)
  | [] => [p]
  | q :: rest => if p.1 < q.1 then p :: q :: rest else q :: insertEntry p rest

/-- `json.Marshal` sorts map keys ascending; insertion sort by key. -/
def sortEntries : List (String × CityCacheEntry) → List (String × CityCacheEntry)
  | [] => []
  | p :: rest => insertEntry p (sortEntries rest)

/-- `json.MarshalIndent` of the whole cache document (the indentation is
byte-level formatting with no information content). -/
def marshalCityCache (c : CityCache) : Json :=
  .obj [("entries", .obj ((sortEntries c.Entries).map fun p => (p.1, marshalEntry p.2)))]

/-! ## Filesystem model, `loadCache` and `saveCache`

The backing file either is absent/unreadable (`none`), holds bytes that are
not valid JSON (`corrupt`), or holds a JSON document (`json j`).  `saveCache`
is a state transition over the filesystem; I/O failures are injected by an
oracle, one flag per fallible step, in the order the Go code performs them.
The in-memory document is threaded through explicitly so that the embedding
states what happens to it (the Go code never writes through the `*CityCache`
pointer). -/
/-- Observable content of the backing file. -/
inductive FileData where
  | corrupt
  | json (j : Json)

/-- Filesystem state: backing-file content, lock-marker existence, whether
this call's temporary file exists, and whether the cache directory exists. -/
structure FsState where
  cacheFile : Option FileData
  lockFile  : Bool
  tmpExists : Bool
  dirExists : Bool

/-- Errors surfaced by `saveCache` (each Go return site wraps a distinct
message around the underlying error). -/
inductive SaveErr where
  | mkdirFailed
  | lockTimeout
  | createTempFailed
  | writeFailed
  | syncFailed
  | closeFailed
  | renameFailed
deriving DecidableEq

/-- Failure injection for the fallible steps of `saveCache`, plus the number
of lock-poll intervals before the 5-second deadline fires. -/
structure SaveOracle where
  mkdirFails      : Bool
  createTempFails : Bool
  writeFails      : Bool
  syncFails       : Bool
  closeFails      : Bool
  renameFails     : Bool
  lockFuel        : Nat

/-- `loadCache` from the source: a read error, unparsable bytes, or a
document of the wrong shape all yield a fresh empty cache (the final
`cache.Entries == nil` normalization is the identity on the list model);
the function is total — no error escapes to the caller. -/
def loadCache (file : Option FileData) : CityCache :=
  match file with
  | none => ⟨[]⟩
  | some .corrupt => ⟨[]⟩
  | some (.json j) =>
    match unmarshalCityCache j with
    | none => ⟨[]⟩
    | some c => c

/-- `saveCache` from the source: marshal (infallible for this type), ensure
the directory, acquire the lock at `<path>.lock` with a deadline, then create,
write, sync, close and rename a temporary file; every failure after the
temporary file exists removes it, and the deferred `unlock` removes the lock
marker on every return path after acquisition.  Returns the call's result,
the final filesystem state, and the caller's in-memory document after the
call. -/
def saveCacheFull (cache : CityCache) (fs : FsState) (o : SaveOracle) :
    Except SaveErr Unit × FsState × CityCache :=
  let data := marshalCityCache cache
  if o.mkdirFails then (Except.error SaveErr.mkdirFailed, fs, cache)
  else
    let fs1 := { fs with dirExists := true }
    match acquireFileLock (fun _ => fs1.lockFile) o.lockFuel with
    | (Except.error _, lockNow) =>
      (Except.error SaveErr.lockTimeout, { fs1 with lockFile := lockNow }, cache)
    | (Except.ok _, _) =>
      let fs2 := { fs1 with lockFile := true }
      if o.createTempFails then
        (Except.error SaveErr.createTempFailed, { fs2 with lockFile := false }, cache)
      else
        let fs3 := { fs2 with tmpExists := true }
        if o.writeFails then
          (Except.error SaveErr.writeFailed,
            { fs3 with tmpExists := false, lockFile := false }, cache)
        else if o.syncFails then
          (Except.error SaveErr.syncFailed,
            { fs3 with tmpExists := false, lockFile := false }, cache)
        else if o.closeFails then
          (Except.error SaveErr.closeFailed,
            { fs3 with tmpExists := false, lockFile := false }, cache)
        else if o.renameFails then
          (Except.error SaveErr.renameFailed,
            { fs3 with tmpExists := false, lockFile := false }, cache)
        else
          (Except.ok (),
            { fs3 with cacheFile := some (.json data), tmpExists := false,
                       lockFile := false }, cache)

/-- C2 witness: the round trip on a concrete one-entry document. -/
def cleanFs : FsState := ⟨none, false, false, false⟩

def okOracle : SaveOracle := ⟨false, false, false, false, false, false, 3⟩

/-- C4 witness: a failed sync on a concrete state with pre-existing backing
content leaves that content in place, removes the temp file, and errors. -/
def oldContentFs : FsState := ⟨some FileData.corrupt, false, false, true⟩

def failSyncOracle : SaveOracle := ⟨false, false, false, true, false, false, 3⟩

/-- C10 witness: a failed write still removes the lock marker. -/
def failWriteOracle : SaveOracle := ⟨false, false, true, false, false, false, 3⟩

/-! ## Claim C7: the nature of the lowercasing -/
/-- Modelled from the spec claim's words: lowercasing that maps only the
ASCII letters A-Z (code points 0x41-0x5A) to lowercase and leaves every
other character unchanged. -/
def specAsciiLowerChar (c : Char) : Char :=
  if 0x41 ≤ c.toNat && c.toNat ≤ 0x5A then Char.ofNat (c.toNat + 32) else c

/-- Modelled from the spec claim's words: the trimmed input with only ASCII
letters A-Z mapped to lowercase. -/
def specAsciiLowerNormalize (s : String) : String :=
  ⟨(goTrimSpace s).data.map specAsciiLowerChar⟩

/-! ## Theorems and supporting lemmas -/

/-! ### Lookup and scan lemmas -/
lemma lookupKey_eq_some_mem {k : String} {l : List (String × CityCacheEntry)}
    {e : CityCacheEntry} (h : lookupKey k l = some e) : (k, e) ∈ l := by
  induction l with
  | nil => simp [lookupKey] at h
  | cons p rest ih =>
    by_cases hp : p.1 = k
    · subst hp
      simp [lookupKey] at h
      subst h
      simp
    · simp only [lookupKey, if_neg hp] at h
      exact List.mem_cons_of_mem _ (ih h)

lemma lookupKey_eq_none_iff {k : String} {l : List (String × CityCacheEntry)} :
    lookupKey k l = none ↔ ∀ e, (k, e) ∉ l := by
  induction l with
  | nil => simp [lookupKey]
  | cons p rest ih =>
    by_cases hp : p.1 = k
    · subst hp
      constructor
      · intro h
        simp [lookupKey] at h
      · intro h
        have := h p.2
        simp at this
    · simp only [lookupKey, if_neg hp, ih]
      constructor
      · intro h e hmem
        rcases List.mem_cons.mp hmem with hc | hm
        · exact hp (by rw [← hc])
        · exact h e hm
      · intro h e hm
        exact h e (List.mem_cons_of_mem _ hm)

lemma aliasMatches_iff {key : String} {as : List String} :
    aliasMatches key as = true ↔ ∃ a ∈ as, normalizeCityKey a = key := by
  induction as with
  | nil => simp [aliasMatches]
  | cons a rest ih =>
    by_cases ha : normalizeCityKey a = key <;>
      simp [aliasMatches, ha, ih]

lemma scanEntries_eq_some {key : String} {l : List (String × CityCacheEntry)}
    {e : CityCacheEntry} (h : scanEntries key l = some e) :
    ∃ p ∈ l, p.2 = e ∧ entryMatches key p.2 := by
  induction l with
  | nil => simp [scanEntries] at h
  | cons p rest ih =>
    by_cases hc : normalizeCityKey p.2.City = key
    · simp [scanEntries, hc] at h
      exact ⟨p, List.mem_cons_self _ _, h, Or.inl hc⟩
    · by_cases hal : aliasMatches key p.2.Aliases
      · simp [scanEntries, hc, hal] at h
        exact ⟨p, List.mem_cons_self _ _, h, Or.inr (aliasMatches_iff.mp hal)⟩
      · simp [scanEntries, hc, hal] at h
        obtain ⟨q, hq, he, hm⟩ := ih h
        exact ⟨q, List.mem_cons_of_mem _ hq, he, hm⟩

lemma scanEntries_eq_none_iff {key : String} {l : List (String × CityCacheEntry)} :
    scanEntries key l = none ↔ ∀ p ∈ l, ¬ entryMatches key p.2 := by
  induction l with
  | nil => simp [scanEntries]
  | cons p rest ih =>
    by_cases hc : normalizeCityKey p.2.City = key
    · constructor
      · intro h
        simp [scanEntries, hc] at h
      · intro h
        exact absurd (Or.inl hc) (h p (List.mem_cons_self p rest))
    · by_cases hal : aliasMatches key p.2.Aliases
      · constructor
        · intro h
          simp [scanEntries, hc, hal] at h
        · intro h
          exact absurd (Or.inr (aliasMatches_iff.mp hal)) (h p (List.mem_cons_self p rest))
      · have hstep : scanEntries key (p :: rest) = scanEntries key rest := by
          simp [scanEntries, hc, hal]
        rw [hstep, ih]
        constructor
        · intro h q hq
          rcases List.mem_cons.mp hq with hqp | hqr
          · subst hqp
            intro hm
            rcases hm with hmc | hma
            · exact hc hmc
            · exact hal (aliasMatches_iff.mpr hma)
          · exact h q hqr
        · intro h q hq
          exact h q (List.mem_cons_of_mem _ hq)

/-- Unfolding lemma for `findEntryInCache`. -/
lemma findEntryInCache_eq (cache : CityCache) (city : String) :
    findEntryInCache cache city =
      match lookupKey (normalizeCityKey city) cache.Entries with
      | some e => (e, true)
      | none =>
        match scanEntries (normalizeCityKey city) cache.Entries with
        | some e => (e, true)
        | none => (emptyCityCacheEntry, false) := rfl

/-- C1: resolution finds an entry exactly when the normalized query equals
some map key, some entry's normalized canonical city name, or some entry's
normalized alias; an exact map-key match is returned when it exists; and with
no match at all the result is the zero entry with found = false. -/
theorem findEntryInCache_characterization (cache : CityCache) (city : String) :
    ((findEntryInCache cache city).2 = true ↔
      ∃ p ∈ cache.Entries, p.1 = normalizeCityKey city ∨
        normalizeCityKey p.2.City = normalizeCityKey city ∨
        ∃ a ∈ p.2.Aliases, normalizeCityKey a = normalizeCityKey city) ∧
    (∀ e, lookupKey (normalizeCityKey city) cache.Entries = some e →
      findEntryInCache cache city = (e, true)) ∧
    ((∀ p ∈ cache.Entries, ¬ (p.1 = normalizeCityKey city ∨
        normalizeCityKey p.2.City = normalizeCityKey city ∨
        ∃ a ∈ p.2.Aliases, normalizeCityKey a = normalizeCityKey city)) →
      findEntryInCache cache city = (emptyCityCacheEntry, false)) := by
  refine ⟨?_, ?_, ?_⟩
  · constructor
    · intro hfound
      rw [findEntryInCache_eq] at hfound
      rcases hl : lookupKey (normalizeCityKey city) cache.Entries with _ | e
      · rw [hl] at hfound
        rcases hs : scanEntries (normalizeCityKey city) cache.Entries with _ | e
        · rw [hs] at hfound
          simp at hfound
        · obtain ⟨p, hp, _, hm⟩ := scanEntries_eq_some hs
          refine ⟨p, hp, Or.inr ?_⟩
          simpa [entryMatches] using hm
      · exact ⟨(normalizeCityKey city, e), lookupKey_eq_some_mem hl, Or.inl rfl⟩
    · rintro ⟨p, hp, hmatch⟩
      rw [findEntryInCache_eq]
      rcases hl : lookupKey (normalizeCityKey city) cache.Entries with _ | e
      · rcases hs : scanEntries (normalizeCityKey city) cache.Entries with _ | e
        · exfalso
          rcases hmatch with hk | hm
          · apply (lookupKey_eq_none_iff.mp hl) p.2
            have hpe : (normalizeCityKey city, p.2) = p := by
              rw [← hk]
            rw [hpe]
            exact hp
          · exact (scanEntries_eq_none_iff.mp hs) p hp (by simpa [entryMatches] using hm)
        · simp
      · simp
  · intro e hl
    rw [findEntryInCache_eq, hl]
  · intro hnone
    rw [findEntryInCache_eq]
    have hl : lookupKey (normalizeCityKey city) cache.Entries = none := by
      rw [lookupKey_eq_none_iff]
      intro e hmem
      exact hnone (normalizeCityKey city, e) hmem (Or.inl rfl)
    have hs : scanEntries (normalizeCityKey city) cache.Entries = none := by
      rw [scanEntries_eq_none_iff]
      intro p hp hm
      refine hnone p hp (Or.inr ?_)
      simpa [entryMatches] using hm
    rw [hl, hs]

theorem findEntryInCache_characterization_witness :
    findEntryInCache demoCache "  beijing " = (demoEntry, true) :=
  (findEntryInCache_characterization demoCache "  beijing ").2.1 demoEntry (by decide)

example : parseRFC3339 "1970-01-01T00:00:00Z" = some 0 := by decide

example : parseRFC3339 "1970-01-02T00:00:00Z" = some 86400000000000 := by decide

example : parseRFC3339 "1969-12-31T23:59:59Z" = some (-1000000000) := by decide

example : parseRFC3339 "1970-01-01T08:00:00+08:00" = some 0 := by decide

example : parseRFC3339 "1970-01-01T00:00:00.5Z" = some 500000000 := by decide

example : parseRFC3339 "2024-02-29T00:00:00Z" = some 1709164800000000000 := by decide

example : parseRFC3339 "2023-02-29T00:00:00Z" = none := by decide

example : parseRFC3339 "" = none := by decide

example : parseRFC3339 "not-a-date" = none := by decide

/-- C6 counterexample: an entry whose `updatedAt` is exactly `now - TTL`
(elapsed time equal to the TTL) is treated as FRESH by the code
(`now.Sub(t) > cacheTTL` is false at equality), contradicting the claim that
it is treated as stale.  Concretely: `updatedAt` is the epoch and `now` is
exactly the default TTL (100 days) later. -/
theorem ttl_boundary_counterexample :
    parseRFC3339 "1970-01-01T00:00:00Z" = some 0 ∧
    entryExpired defaultCacheTTL defaultCacheTTL "1970-01-01T00:00:00Z" = false := by
  constructor <;> decide

/-- C6 amended: for a parsable `updatedAt`, the entry is stale exactly when
the elapsed time `now - t` strictly exceeds the TTL; hence an entry exactly
at `now - TTL` is fresh, and one a millisecond staler (elapsed `TTL + 1ms`)
is stale. -/
theorem entryExpired_iff_elapsed_gt_ttl (now ttl t : Int) (s : String)
    (hp : parseRFC3339 s = some t) :
    (entryExpired now ttl s = true ↔ ttl < now - t) ∧
    (t = now - ttl → entryExpired now ttl s = false) ∧
    (t = now - ttl - 1000000 → entryExpired now ttl s = true) := by
  have hne : s ≠ "" := by
    intro he
    rw [he] at hp
    rw [show parseRFC3339 "" = none from by decide] at hp
    exact Option.noConfusion hp
  have hbase : entryExpired now ttl s = decide (now - t > ttl) := by
    rw [entryExpired, if_neg hne, hp]
  refine ⟨?_, ?_, ?_⟩
  · rw [hbase]
    simp [gt_iff_lt]
  · intro ht
    subst ht
    rw [hbase]
    simp
  · intro ht
    subst ht
    rw [hbase]
    simp
    omega

/-- C6 witness: the amended theorem applied at a concrete parsable timestamp,
discharging its hypothesis: with `now = 5`, `ttl = 3`, `t = 0` the entry is
stale. -/
theorem entryExpired_iff_elapsed_gt_ttl_witness :
    entryExpired 5 3 "1970-01-01T00:00:00Z" = true :=
  ((entryExpired_iff_elapsed_gt_ttl 5 3 0 "1970-01-01T00:00:00Z" (by decide)).1).mpr
    (by decide)

lemma isFetchAttempt_fetchCity (cache : CityCache) (city : String) (net : NetOracle) :
    isFetchAttempt (fetchCity cache city net) = true := by
  rw [fetchCity]
  rcases net.geocode with _ | ⟨lat, lon, d⟩
  · rfl
  · rcases net.tzOf with _ | tz
    · rfl
    · by_cases hl : net.loadTZOk tz = false
      · simp [hl, isFetchAttempt]
      · by_cases hs : net.saveFails <;> simp [hl, hs, isFetchAttempt]

/-- C9: a cached entry whose `updatedAt` is empty or not parsable as RFC3339
is treated as expired by the freshness check; `prepareCity` then fails with
the cache-expired error in offline mode, and in online mode does not use the
entry but attempts a fresh fetch. -/
theorem prepareCity_unparsable_updatedAt (cache : CityCache) (city : String)
    (now ttl : Int) (net : NetOracle) (e : CityCacheEntry)
    (hcity : city ≠ "")
    (hfound : findEntryInCache cache city = (e, true))
    (hbad : e.UpdatedAt = "" ∨ parseRFC3339 e.UpdatedAt = none) :
    prepareCity cache city true now ttl net = .offlineExpired city ∧
    isFetchAttempt (prepareCity cache city false now ttl net) = true ∧
    ∀ e', prepareCity cache city false now ttl net ≠ .cachedHit e' := by
  have hexp : entryExpired now ttl e.UpdatedAt = true := by
    rcases hbad with hb | hb
    · rw [entryExpired, if_pos hb]
    · rw [entryExpired]
      by_cases hne : e.UpdatedAt = ""
      · rw [if_pos hne]
      · rw [if_neg hne, hb]
  have hoff : prepareCity cache city true now ttl net = .offlineExpired city := by
    rw [prepareCity, if_neg hcity, hfound]
    simp [hexp]
  have hon : prepareCity cache city false now ttl net = fetchCity cache city net := by
    rw [prepareCity, if_neg hcity, hfound]
    simp [hexp]
  refine ⟨hoff, ?_, ?_⟩
  · rw [hon]
    exact isFetchAttempt_fetchCity cache city net
  · intro e' hcontra
    rw [hon] at hcontra
    have := isFetchAttempt_fetchCity cache city net
    rw [hcontra] at this
    exact Bool.noConfusion this

theorem prepareCity_unparsable_updatedAt_witness :
    prepareCity staleCache "Paris" true 0 defaultCacheTTL demoNet =
      .offlineExpired "Paris" :=
  (prepareCity_unparsable_updatedAt staleCache "Paris" 0 defaultCacheTTL demoNet
    staleEntry (by decide) (by decide) (Or.inl rfl)).1

lemma acquireLoop_all_true {env : Nat → Bool} (h : ∀ i, env i = true) :
    ∀ fuel i, acquireLoop env i fuel = (Except.error LockErr.timeout, true) := by
  intro fuel
  induction fuel with
  | zero =>
    intro i
    rw [acquireLoop.eq_def, h i]
    simp
  | succ f ih =>
    intro i
    rw [acquireLoop.eq_def, h i]
    simpa using ih (i + 1)

lemma acquireLoop_all_false {env : Nat → Bool} (h : ∀ i, env i = false) :
    ∀ fuel i, acquireLoop env i fuel = (Except.ok (), true) := by
  intro fuel i
  rw [acquireLoop.eq_def, h i]
  simp

/-- Constant-environment characterization of `acquireFileLock`, used by the
`saveCache` model (a single sequential process: nobody else touches the
marker during the poll loop). -/
lemma acquireFileLock_const (b : Bool) (fuel : Nat) :
    acquireFileLock (fun _ => b) fuel =
      if b then (Except.error LockErr.timeout, true) else (Except.ok (), true) := by
  cases b
  · simpa [acquireFileLock] using @acquireLoop_all_false (fun _ => false) (fun _ => rfl) fuel 0
  · simpa [acquireFileLock] using @acquireLoop_all_true (fun _ => true) (fun _ => rfl) fuel 0

/-- C5: while the lock marker exists at the path (the environment reports it
present at every poll), `acquireFileLock` fails with the propagated
cancellation error when the deadline fires — for any deadline — and the
marker still exists, neither created nor removed by the failed call; after
the holder's `release` removes the marker, a subsequent acquire succeeds and
re-creates it. -/
theorem acquireFileLock_mutual_exclusion (env : Nat → Bool) (fuel fuel' : Nat)
    (hheld : ∀ i, env i = true) :
    acquireFileLock env fuel = (Except.error LockErr.timeout, true) ∧
    releaseFileLock = false ∧
    acquireFileLock (fun _ => releaseFileLock) fuel' = (Except.ok (), true) := by
  refine ⟨acquireLoop_all_true hheld fuel 0, rfl, ?_⟩
  rw [acquireFileLock_const]
  simp [releaseFileLock]

/-- C5 witness: the theorem at the constantly-held environment with a
two-interval deadline. -/
theorem acquireFileLock_mutual_exclusion_witness :
    acquireFileLock (fun _ => true) 2 = (Except.error LockErr.timeout, true) :=
  (acquireFileLock_mutual_exclusion (fun _ => true) 2 0 (fun _ => rfl)).1

/-! ### Round-trip lemmas -/
lemma decodeStrings_map (l : List String) :
    decodeStrings (l.map Json.str) = some l := by
  induction l with
  | nil => rfl
  | cons a rest ih =>
    simp [decodeStrings, decodeString, ih]

lemma unmarshalEntry_marshalEntry (e : CityCacheEntry) :
    unmarshalEntry (marshalEntry e) = some e := by
  rcases e with ⟨city, norm, disp, lat, lon, tz, al, upd⟩
  by_cases hal : al = []
  · subst hal
    rfl
  · simp only [marshalEntry, if_neg hal]
    have h7 : fieldStrings
        ([("city", Json.str city), ("normalized", Json.str norm),
          ("display_name", Json.str disp), ("lat", Json.num lat),
          ("lon", Json.num lon), ("timezone_id", Json.str tz)]
          ++ [("aliases", Json.arr (al.map Json.str))]
          ++ [("updated_at", Json.str upd)]) "aliases" = some al := by
      show decodeStringList (Json.arr (al.map Json.str)) = some al
      simpa [decodeStringList] using decodeStrings_map al
    simp only [unmarshalEntry]
    rw [h7]
    rfl

lemma unmarshalEntries_marshal (l : List (String × CityCacheEntry)) :
    unmarshalEntries (l.map fun p => (p.1, marshalEntry p.2)) = some l := by
  induction l with
  | nil => rfl
  | cons p rest ih =>
    simp [unmarshalEntries, unmarshalEntry_marshalEntry, ih]

lemma unmarshal_marshal_cityCache (c : CityCache) :
    unmarshalCityCache (marshalCityCache c) = some ⟨sortEntries c.Entries⟩ := by
  show (match unmarshalEntries ((sortEntries c.Entries).map fun p => (p.1, marshalEntry p.2)) with
    | some es => some (⟨es⟩ : CityCache)
    | none => none) = some ⟨sortEntries c.Entries⟩
  rw [unmarshalEntries_marshal]

/-! ### The key sort is invisible to lookups (given unique keys) -/
lemma mem_insertEntry {q p : String × CityCacheEntry}
    {l : List (String × CityCacheEntry)} :
    q ∈ insertEntry p l ↔ q = p ∨ q ∈ l := by
  induction l with
  | nil => simp [insertEntry]
  | cons r rest ih =>
    by_cases hlt : p.1 < r.1
    · simp [insertEntry, hlt]
    · simp [insertEntry, hlt, ih]
      tauto

lemma mem_sortEntries {q : String × CityCacheEntry}
    {l : List (String × CityCacheEntry)} :
    q ∈ sortEntries l ↔ q ∈ l := by
  induction l with
  | nil => simp [sortEntries]
  | cons p rest ih =>
    simp [sortEntries, mem_insertEntry, ih]

lemma lookupKey_insertEntry_ne {k : String} {p : String × CityCacheEntry}
    {l : List (String × CityCacheEntry)} (hk : p.1 ≠ k) :
    lookupKey k (insertEntry p l) = lookupKey k l := by
  induction l with
  | nil => simp [insertEntry, lookupKey, hk]
  | cons q rest ih =>
    by_cases hlt : p.1 < q.1
    · simp only [insertEntry, if_pos hlt]
      simp [lookupKey, hk]
    · simp only [insertEntry, if_neg hlt]
      by_cases hq : q.1 = k
      · simp [lookupKey, hq]
      · simp [lookupKey, hq, ih]

lemma lookupKey_insertEntry_eq {p : String × CityCacheEntry}
    {l : List (String × CityCacheEntry)}
    (habs : ∀ e, (p.1, e) ∉ l) :
    lookupKey p.1 (insertEntry p l) = some p.2 := by
  induction l with
  | nil => simp [insertEntry, lookupKey]
  | cons q rest ih =>
    have hq : q.1 ≠ p.1 := by
      intro hc
      exact habs q.2 (by rw [← hc]; simp)
    by_cases hlt : p.1 < q.1
    · simp [insertEntry, hlt, lookupKey]
    · have habs' : ∀ e, (p.1, e) ∉ rest := fun e he =>
        habs e (List.mem_cons_of_mem _ he)
      simp [insertEntry, hlt, lookupKey, hq, ih habs']

lemma lookupKey_sortEntries {l : List (String × CityCacheEntry)}
    (hnd : (l.map Prod.fst).Nodup) (k : String) :
    lookupKey k (sortEntries l) = lookupKey k l := by
  induction l with
  | nil => simp [sortEntries]
  | cons p rest ih =>
    rw [List.map_cons, List.nodup_cons] at hnd
    obtain ⟨hp, hrest⟩ := hnd
    by_cases hk : p.1 = k
    · subst hk
      have habs : ∀ e, (p.1, e) ∉ sortEntries rest := by
        intro e he
        apply hp
        rw [List.mem_map]
        exact ⟨(p.1, e), mem_sortEntries.mp he, rfl⟩
      rw [sortEntries, lookupKey_insertEntry_eq habs]
      simp [lookupKey]
    · rw [sortEntries, lookupKey_insertEntry_ne hk, ih hrest]
      simp [lookupKey, hk]

/-- C2: for a valid document (unique map keys), a successful `saveCache`
followed by `loadCache` yields an equivalent document: the same set of keys
and, for each key, the identical entry (all fields, aliases included). -/
theorem saveCache_loadCache_round_trip (c : CityCache) (fs : FsState) (o : SaveOracle)
    (hnd : (c.Entries.map Prod.fst).Nodup)
    (hok : (saveCacheFull c fs o).1 = Except.ok ()) :
    (∀ k, lookupKey k (loadCache (saveCacheFull c fs o).2.1.cacheFile).Entries =
      lookupKey k c.Entries) ∧
    (∀ k e, (k, e) ∈ (loadCache (saveCacheFull c fs o).2.1.cacheFile).Entries ↔
      (k, e) ∈ c.Entries) := by
  have hfile : (saveCacheFull c fs o).2.1.cacheFile =
      some (.json (marshalCityCache c)) := by
    rw [saveCacheFull] at hok ⊢
    rcases o with ⟨mk, ct, wr, sy, cl, rn, fuel⟩
    cases mk
    · rcases hb : fs.lockFile
      · simp only [hb, acquireFileLock_const, if_false, Bool.false_eq_true] at hok ⊢
        cases ct
        · cases wr
          · cases sy
            · cases cl
              · cases rn
                · simp
                · simp at hok
              · simp at hok
            · simp at hok
          · simp at hok
        · simp at hok
      · simp only [hb, acquireFileLock_const, if_true] at hok
        simp at hok
    · simp at hok
  rw [hfile]
  have hload : loadCache (some (.json (marshalCityCache c))) = ⟨sortEntries c.Entries⟩ := by
    rw [loadCache, unmarshal_marshal_cityCache]
  rw [hload]
  exact ⟨lookupKey_sortEntries hnd, fun k e => mem_sortEntries⟩

theorem saveCache_loadCache_round_trip_witness :
    lookupKey "beijing"
        (loadCache (saveCacheFull demoCache cleanFs okOracle).2.1.cacheFile).Entries =
      lookupKey "beijing" demoCache.Entries :=
  (saveCache_loadCache_round_trip demoCache cleanFs okOracle (by decide) (by rfl)).1
    "beijing"

/-- C3: `loadCache` is a total function of the file state — no error or
panic can escape — and on every backing-file state that is absent,
unreadable, or whose content does not parse as the expected document shape,
it returns a fresh empty cache document with zero entries. -/
theorem loadCache_corruption_tolerance (fd : Option FileData)
    (h : fd = none ∨ fd = some FileData.corrupt ∨
      ∃ j, fd = some (FileData.json j) ∧ unmarshalCityCache j = none) :
    (loadCache fd).Entries = [] := by
  rcases h with h | h | ⟨j, hj, hu⟩
  · rw [h]
    rfl
  · rw [h]
    rfl
  · rw [hj, loadCache, hu]

/-- C3 witness: loading a backing file holding unparsable bytes yields the
empty document. -/
theorem loadCache_corruption_tolerance_witness :
    (loadCache (some FileData.corrupt)).Entries = [] :=
  loadCache_corruption_tolerance (some FileData.corrupt) (Or.inr (Or.inl rfl))

/-- C4: when any step after lock acquisition fails (creating, writing,
syncing, closing or renaming the temporary file), `saveCache` propagates an
error, the temporary file does not survive the call, and the backing file's
old content is untouched. -/
theorem saveCache_atomic_failure (c : CityCache) (fs : FsState) (o : SaveOracle)
    (hTmp : fs.tmpExists = false)
    (hLock : fs.lockFile = false)
    (hMkdir : o.mkdirFails = false)
    (hFail : (o.createTempFails || o.writeFails || o.syncFails || o.closeFails ||
      o.renameFails) = true) :
    (∃ err, (saveCacheFull c fs o).1 = Except.error err) ∧
    (saveCacheFull c fs o).2.1.tmpExists = false ∧
    (saveCacheFull c fs o).2.1.cacheFile = fs.cacheFile := by
  rcases o with ⟨mk, ct, wr, sy, cl, rn, fuel⟩
  simp only at hMkdir hFail
  subst hMkdir
  cases ct <;> cases wr <;> cases sy <;> cases cl <;> cases rn <;>
    simp_all [saveCacheFull, acquireFileLock_const, hLock, hTmp]

theorem saveCache_atomic_failure_witness :
    (∃ err, (saveCacheFull demoCache oldContentFs failSyncOracle).1 =
      Except.error err) ∧
    (saveCacheFull demoCache oldContentFs failSyncOracle).2.1.tmpExists = false ∧
    (saveCacheFull demoCache oldContentFs failSyncOracle).2.1.cacheFile =
      oldContentFs.cacheFile :=
  saveCache_atomic_failure demoCache oldContentFs failSyncOracle rfl rfl rfl rfl

/-- C8: `saveCache` never mutates the caller's in-memory document: on every
call — success, lock timeout, or I/O failure at any step — the returned
caller-side document is the argument itself, entry for entry. -/
theorem saveCache_no_mutation (c : CityCache) (fs : FsState) (o : SaveOracle) :
    (saveCacheFull c fs o).2.2 = c ∧
    ∀ k, lookupKey k (saveCacheFull c fs o).2.2.Entries = lookupKey k c.Entries := by
  rcases o with ⟨mk, ct, wr, sy, cl, rn, fuel⟩
  have h : (saveCacheFull c fs ⟨mk, ct, wr, sy, cl, rn, fuel⟩).2.2 = c := by
    rcases hb : fs.lockFile <;>
      cases mk <;> cases ct <;> cases wr <;> cases sy <;> cases cl <;> cases rn <;>
        simp [saveCacheFull, acquireFileLock_const, hb]
  refine ⟨h, fun k => by rw [h]⟩

/-- C10: once the lock marker was absent at call time (so acquisition inside
`saveCache` succeeds whenever reached), the marker does not exist when
`saveCache` returns, on every success or failure path. -/
theorem saveCache_releases_lock (c : CityCache) (fs : FsState) (o : SaveOracle)
    (hLock : fs.lockFile = false) :
    (saveCacheFull c fs o).2.1.lockFile = false := by
  rcases o with ⟨mk, ct, wr, sy, cl, rn, fuel⟩
  cases mk <;> cases ct <;> cases wr <;> cases sy <;> cases cl <;> cases rn <;>
    simp [saveCacheFull, acquireFileLock_const, hLock]

theorem saveCache_releases_lock_witness :
    (saveCacheFull demoCache cleanFs failWriteOracle).2.1.lockFile = false :=
  saveCache_releases_lock demoCache cleanFs failWriteOracle rfl

/-- C7 counterexample: Go `strings.ToLower` applies the Unicode simple
lowercase mapping, not an ASCII-only ordinal lowering: on the Latin-1
capital 'É' the source's normalization produces 'é', while the claim's
"only ASCII letters A-Z mapped to lowercase" reading would leave 'É'
unchanged. -/
theorem normalizeCityKey_not_ascii_only :
    normalizeCityKey "É" = "é" ∧ specAsciiLowerNormalize "É" = "É" ∧
    normalizeCityKey "É" ≠ specAsciiLowerNormalize "É" := by
  refine ⟨?_, ?_, ?_⟩ <;> decide

lemma goToLowerChar_ascii {c : Char} (h : c.toNat < 128) :
    goToLowerChar c = specAsciiLowerChar c := by
  have h1 : (decide (0xC0 ≤ c.toNat)) = false := by
    simp only [decide_eq_false_iff_not]
    omega
  have h2 : (decide (0x391 ≤ c.toNat)) = false := by
    simp only [decide_eq_false_iff_not]
    omega
  have h3 : (decide (0x410 ≤ c.toNat)) = false := by
    simp only [decide_eq_false_iff_not]
    omega
  have h4 : (decide (0x400 ≤ c.toNat)) = false := by
    simp only [decide_eq_false_iff_not]
    omega
  rw [goToLowerChar, specAsciiLowerChar]
  simp only [h1, h2, h3, h4, Bool.false_and, if_false, Bool.false_eq_true, ite_false]

lemma mem_goTrimSpace {c : Char} {s : String} (h : c ∈ (goTrimSpace s).data) :
    c ∈ s.data := by
  rw [goTrimSpace] at h
  have h1 : c ∈ (s.data.dropWhile goIsSpace).reverse.dropWhile goIsSpace := by
    simpa using h
  have h2 := List.dropWhile_subset goIsSpace h1
  have h3 : c ∈ s.data.dropWhile goIsSpace := by
    simpa using h2
  exact List.dropWhile_subset goIsSpace h3

/-- C7 amended: the claim's description — trimmed input with only ASCII
letters A-Z lowered — is correct exactly on ASCII inputs; in general the
source applies the locale-independent Unicode simple lowercase mapping,
which also lowers cased non-ASCII letters (so caseless scripts are
unaffected, but cased non-Latin scripts are lowered too). -/
theorem normalizeCityKey_ascii_agreement (s : String)
    (h : ∀ c ∈ s.data, c.toNat < 128) :
    normalizeCityKey s = specAsciiLowerNormalize s := by
  rw [normalizeCityKey, goToLowerString, specAsciiLowerNormalize]
  congr 1
  apply List.map_congr_left
  intro c hc
  exact goToLowerChar_ascii (h c (mem_goTrimSpace hc))

/-- C7 witness: the amended theorem at a concrete ASCII input. -/
theorem normalizeCityKey_ascii_agreement_witness :
    normalizeCityKey "  New York " = specAsciiLowerNormalize "  New York " :=
  normalizeCityKey_ascii_agreement "  New York " (by decide)
